import Mathlib

/-!
Verification development for the EthCC planner chat service.

The definitions below are shallow embeddings of the TypeScript source:
strings are Lean `String`s manipulated through their underlying character
lists, JavaScript regular expressions are embedded as a small backtracking
matcher over an explicit pattern syntax, and the stateful agent callbacks
are embedded as pure functions from agent state to agent state plus an
explicit effect trace.  Floating-point progress percentages are modelled
as rationals.
-/

/-! ### Character and string helpers -/

/-- The apostrophe character (codepoint 39), used when building the fixed
reply strings of the agent. -/
def apoc : Char := Char.ofNat 39

/-- The apostrophe as a one-character string. -/
def apos : String := String.mk [apoc]

/-- JavaScript `\s` restricted to its ASCII members (space, tab, line feed,
vertical tab, form feed, carriage return).  The Unicode space characters
also matched by `\s` are not modelled. -/
def isJsSpace (c : Char) : Bool :=
  c = ' ' || c = '\t' || c = '\n' || c = '\x0b' || c = '\x0c' || c = '\r'

/-- JavaScript `\w`: ASCII letters, digits and underscore. -/
def isWordChar (c : Char) : Bool :=
  c.isAlpha || c.isDigit || c = '_'

/-- Lowercasing on character lists; embeds `String.prototype.toLowerCase`
for the ASCII strings the source manipulates. -/
def lowerData (s : String) : List Char :=
  s.data.map Char.toLower

/-- Containment of `needle` in `hay` at any position; embeds
`String.prototype.includes`. -/
def listContains (hay needle : List Char) : Bool :=
  needle.isPrefixOf hay ||
    (match hay with
     | [] => false
     | _ :: t => listContains t needle)

/-- `strJoin sep l` embeds JavaScript `Array.prototype.join(sep)`. -/
def strJoin (sep : String) : List String → String
  | [] => ""
  | [a] => a
  | a :: b :: rest => a ++ sep ++ strJoin sep (b :: rest)

/-- Tokenizer: maximal runs of non-whitespace characters, accumulator
based.  Together with a length filter this embeds
`split(/\s+/)` followed by `.filter(w => w.length >= 3)`: the two agree
because the JavaScript split only additionally produces empty tokens,
which the length filter removes. -/
def tokRunsAux : List Char → List Char → List (List Char)
  | [], acc => if acc.isEmpty then [] else [acc.reverse]
  | c :: cs, acc =>
    if isJsSpace c then
      (if acc.isEmpty then tokRunsAux cs [] else acc.reverse :: tokRunsAux cs [])
    else tokRunsAux cs (c :: acc)

/-- Whitespace-separated tokens of a character list. -/
def tokRuns (l : List Char) : List (List Char) :=
  tokRunsAux l []

/-! ### A backtracking matcher for the regular expressions of the source

The source uses a fixed set of JavaScript regular expressions.  They are
embedded as values of the pattern syntax `RE` below; the matcher `mrun`
enumerates the possible matches of a pattern at a fixed position in
JavaScript priority order (alternation left first, quantifiers greedy,
full backtracking), and `reSearchAux` scans start positions left to
right, which is exactly the semantics of `RegExp.prototype.test` and
`String.prototype.match` for these patterns.  The only capture group
appearing in the source patterns is `(\w{1,15})`, embedded as `grp`. -/

inductive RE : Type
  | lit : List Char → RE
  | litCI : List Char → RE
  | cls : (Char → Bool) → Nat → Option Nat → RE
  | grp : Nat → Nat → RE
  | seq : RE → RE → RE
  | alt : RE → RE → RE
  | opt : RE → RE
  | eps : RE
  | wb : RE

/-- One possible way a pattern matched: the capture (if its group was
used), the last character consumed so far (for word boundaries) and the
remaining input. -/
structure MRes where
  cap : Option (List Char)
  prev : Option Char
  rest : List Char

/-- Length of the maximal prefix whose characters satisfy `p`. -/
def classRun (p : Char → Bool) : List Char → Nat
  | [] => 0
  | c :: cs => if p c then classRun p cs + 1 else 0

/-- `countdown hi lo` is `[hi, hi-1, ..., lo]`, the greedy enumeration
order of repetition counts. -/
def countdown (hi lo : Nat) : List Nat :=
  if hi < lo then [] else (List.range (hi - lo + 1)).map (fun i => hi - i)

/-- Last character of `consumed`, falling back to the previous context
character. -/
def lastCharOf (prev : Option Char) (consumed : List Char) : Option Char :=
  match consumed.getLast? with
  | some c => some c
  | none => prev

/-- Whether an optional context character is a word character (used by
word boundaries; `none` stands for the edge of the input). -/
def wordB : Option Char → Bool
  | some c => isWordChar c
  | none => false

/-- Combine the captures of two sequenced sub-matches (at most one group
occurs in the source patterns). -/
def capJoin (a b : Option (List Char)) : Option (List Char) :=
  match a with
  | some c => some c
  | none => b

/-- All matches of a pattern at the current position, in JavaScript
backtracking priority order. -/
def mrun : RE → Option Char → List Char → List MRes
  | RE.eps, prev, input => [⟨none, prev, input⟩]
  | RE.lit cs, prev, input =>
    if input.take cs.length = cs then
      [⟨none, lastCharOf prev (input.take cs.length), input.drop cs.length⟩]
    else []
  | RE.litCI cs, prev, input =>
    if (input.take cs.length).map Char.toLower = cs then
      [⟨none, lastCharOf prev (input.take cs.length), input.drop cs.length⟩]
    else []
  | RE.cls p lo hi, prev, input =>
    let run := classRun p input
    let m := match hi with
      | some h => min run h
      | none => run
    (countdown m lo).map (fun k => ⟨none, lastCharOf prev (input.take k), input.drop k⟩)
  | RE.grp lo hi, prev, input =>
    let m := min (classRun isWordChar input) hi
    (countdown m lo).map (fun k => ⟨some (input.take k), lastCharOf prev (input.take k), input.drop k⟩)
  | RE.seq r1 r2, prev, input =>
    (mrun r1 prev input).flatMap (fun a =>
      (mrun r2 a.prev a.rest).map (fun b => ⟨capJoin a.cap b.cap, b.prev, b.rest⟩))
  | RE.alt r1 r2, prev, input => mrun r1 prev input ++ mrun r2 prev input
  | RE.opt r, prev, input => mrun r prev input ++ [⟨none, prev, input⟩]
  | RE.wb, prev, input =>
    if wordB prev = wordB input.head? then [] else [⟨none, prev, input⟩]

/-- Scan start positions left to right; the head of the first non-empty
match list is the match JavaScript reports. -/
def reSearchAux (re : RE) : Option Char → List Char → Option (Option (List Char))
  | prev, [] =>
    match mrun re prev [] with
    | r :: _ => some r.cap
    | [] => none
  | prev, c :: rest =>
    match mrun re prev (c :: rest) with
    | r :: _ => some r.cap
    | [] => reSearchAux re (some c) rest

/-- Embeds `RegExp.prototype.test`. -/
def reTest (re : RE) (s : String) : Bool :=
  (reSearchAux re none s.data).isSome

/-- Embeds `text.match(re)?.[1]`: the first capture of the leftmost
match, when there is one. -/
def reCapture (re : RE) (s : String) : Option String :=
  match reSearchAux re none s.data with
  | some (some cs) => some (String.mk cs)
  | some none => none
  | none => none

/-- Case-insensitive literal pattern; the pattern characters are stored
lowercased, matching the `/i` flag. -/
def strCI (s : String) : RE :=
  RE.litCI (lowerData s)

/-- Case-sensitive literal pattern. -/
def strCS (s : String) : RE :=
  RE.lit s.data

/-- `\s+` -/
def wsPlus : RE := RE.cls isJsSpace 1 none

/-- `\s*` -/
def wsStar : RE := RE.cls isJsSpace 0 none

/-- Right-nested sequencing of a pattern list. -/
def reSeq : List RE → RE
  | [] => RE.eps
  | [r] => r
  | r :: rest => RE.seq r (reSeq rest)

/-- Right-nested alternation (left branch tried first, as in JavaScript). -/
def reAlt : List RE → RE
  | [] => RE.eps
  | [r] => r
  | r :: rest => RE.alt r (reAlt rest)

/-! ### Intent extraction (`detectInjection`, `extractTwitterHandle`)

Transcriptions of the regular-expression literals of the source. -/

/-- `/ignore\s+(previous|above|all)\s+(instructions|prompts|rules)/i` -/
def injectionP1 : RE :=
  reSeq [strCI "ignore", wsPlus, reAlt [strCI "previous", strCI "above", strCI "all"],
    wsPlus, reAlt [strCI "instructions", strCI "prompts", strCI "rules"]]

/-- `/you\s+are\s+now/i` -/
def injectionP2 : RE :=
  reSeq [strCI "you", wsPlus, strCI "are", wsPlus, strCI "now"]

/-- Embeds the pattern matching "pretend to be" and "pretend you are"
phrasings, with an optional apostrophe. -/
def injectionP3 : RE :=
  reSeq [strCI "pretend", wsPlus,
    reAlt [reSeq [strCI "to", wsPlus, strCI "be"],
      reSeq [strCI "you", RE.opt (strCS apos), strCI "re"]]]

/-- `/new\s+(role|persona|identity|instructions)/i` -/
def injectionP4 : RE :=
  reSeq [strCI "new", wsPlus,
    reAlt [strCI "role", strCI "persona", strCI "identity", strCI "instructions"]]

/-- `/system\s*prompt/i` -/
def injectionP5 : RE :=
  reSeq [strCI "system", wsStar, strCI "prompt"]

/-- `/reveal\s+(your|the)\s+(instructions|prompt|rules)/i` -/
def injectionP6 : RE :=
  reSeq [strCI "reveal", wsPlus, reAlt [strCI "your", strCI "the"], wsPlus,
    reAlt [strCI "instructions", strCI "prompt", strCI "rules"]]

/-- `/developer\s+mode/i` -/
def injectionP7 : RE :=
  reSeq [strCI "developer", wsPlus, strCI "mode"]

/-- The case-sensitive pattern matching the word DAN between word
boundaries. -/
def injectionP8 : RE :=
  reSeq [RE.wb, strCS "DAN", RE.wb]

/-- `/do\s+anything\s+now/i` -/
def injectionP9 : RE :=
  reSeq [strCI "do", wsPlus, strCI "anything", wsPlus, strCI "now"]

/-- `/jailbreak/i` -/
def injectionP10 : RE :=
  strCI "jailbreak"

/-- The ordered list `INJECTION_PATTERNS` of the source. -/
def INJECTION_PATTERNS : List RE :=
  [injectionP1, injectionP2, injectionP3, injectionP4, injectionP5,
   injectionP6, injectionP7, injectionP8, injectionP9, injectionP10]

/-- `detectInjection`: some pattern matches the input. -/
def detectInjection (input : String) : Bool :=
  INJECTION_PATTERNS.any (fun p => reTest p input)

/-- `/(?:twitter\.com|x\.com)\/(\w{1,15})\b/i` -/
def TWITTER_URL_RE : RE :=
  reSeq [reAlt [strCI "twitter.com", strCI "x.com"], strCS "/", RE.grp 1 15, RE.wb]

/-- The optional filler words after "is" in the handle pattern. -/
def handleFillerOpt : RE :=
  RE.opt (reAlt [strCI "actually", strCI "really", strCI "just", strCI "basically"])

/-- First alternative of `TWITTER_HANDLE_RE`: an optional "my", then
"twitter" or "x.com", an optional "profile"/"handle"/"account", then
"is" or ":", optional filler, and an optional at-sign. -/
def handleBranchA : RE :=
  reSeq [RE.opt (reSeq [strCI "my", wsPlus]),
    reAlt [strCI "twitter", strCI "x.com"],
    RE.opt (reSeq [wsPlus, reAlt [strCI "profile", strCI "handle", strCI "account"]]),
    wsStar, reAlt [strCI "is", strCI ":"], wsStar, handleFillerOpt, wsStar,
    RE.opt (strCS "@")]

/-- Second alternative of `TWITTER_HANDLE_RE`: an optional "my", then
"profile"/"handle"/"account", then "is" or ":", optional filler, and an
optional at-sign. -/
def handleBranchB : RE :=
  reSeq [RE.opt (reSeq [strCI "my", wsPlus]),
    reAlt [strCI "profile", strCI "handle", strCI "account"],
    wsStar, reAlt [strCI "is", strCI ":"], wsStar, handleFillerOpt, wsStar,
    RE.opt (strCS "@")]

/-- The natural-language handle pattern `TWITTER_HANDLE_RE`. -/
def TWITTER_HANDLE_RE : RE :=
  reSeq [reAlt [handleBranchA, handleBranchB], RE.grp 1 15, RE.wb]

/-- The correction pattern `TWITTER_CORRECTION_RE`, matching phrasings
such as "it is actually X" and "try X" with an optional at-sign. -/
def TWITTER_CORRECTION_RE : RE :=
  reSeq [reAlt
      [reSeq [strCI "it", reAlt [RE.litCI (lowerData (apos ++ "s")), strCI " is"],
        wsPlus, RE.opt (reSeq [strCI "actually", wsPlus])],
      reSeq [strCI "try", wsPlus]],
    RE.opt (strCS "@"), RE.grp 1 15, RE.wb]

/-- `extractTwitterHandle`: the three patterns, tried in source order. -/
def extractTwitterHandle (text : String) : Option String :=
  match reCapture TWITTER_URL_RE text with
  | some h => some h
  | none =>
    match reCapture TWITTER_HANDLE_RE text with
    | some h => some h
    | none => reCapture TWITTER_CORRECTION_RE text

/-- Remove one leading at-sign, if present. -/
def stripLeadingAt (h : String) : String :=
  match h.data with
  | c :: rest => if c = '@' then String.mk rest else h
  | [] => h

/-- Modelled from the spec wording for subject-handle extraction: the
ordered pattern set is evaluated first-match-wins and the captured token
is returned with any leading at-sign marker stripped; no match yields
nothing. -/
def extractTwitterHandleSpec (text : String) : Option String :=
  ([TWITTER_URL_RE, TWITTER_HANDLE_RE, TWITTER_CORRECTION_RE].findSome?
      (fun re => reCapture re text)).map stripLeadingAt

/-! ### Relevance search (`searchTalksLocal`)

The talk record of `ethcc-api.ts`, with `extendedProps` flattened into
the structure (the source never treats it separately). -/

structure EthccSpeaker where
  displayName : String
  organization : String
deriving DecidableEq, Repr

structure EthccTalk where
  id : String
  slug : String
  title : String
  start : String
  end_ : String
  resourceId : String
  description : String
  track : String
  type_ : String
  speakersData : List EthccSpeaker
deriving DecidableEq, Repr

/-- The whitespace tokens of length at least 3 of the lowercased query;
embeds `query.toLowerCase().split(/\s+/).filter(w => w.length >= 3)`. -/
def tokensOf (query : String) : List (List Char) :=
  (tokRuns (lowerData query)).filter (fun w => 3 ≤ w.length)

/-- The joined speaker text
`speakersData.map(s => s.displayName + " " + s.organization).join(" ")`. -/
def speakersText (t : EthccTalk) : String :=
  strJoin " " (t.speakersData.map (fun s => s.displayName ++ " " ++ s.organization))

/-- Per-talk score: for each token, the first containing field in the
order title, track, speakers, description contributes its weight
(3, 2, 2, 1) and the later fields are not consulted. -/
def scoreTalk (t : EthccTalk) (words : List (List Char)) : Nat :=
  let title := lowerData t.title
  let track := lowerData t.track
  let speakers := lowerData (speakersText t)
  let desc := lowerData t.description
  words.foldl (fun score w =>
    if listContains title w then score + 3
    else if listContains track w then score + 2
    else if listContains speakers w then score + 2
    else if listContains desc w then score + 1
    else score) 0

/-- Lexicographic order on character lists by codepoint; embeds the
`localeCompare` tie-break of the source, whose arguments are ASCII ISO
timestamps. -/
def charListLe : List Char → List Char → Bool
  | [], _ => true
  | _ :: _, [] => false
  | a :: as, b :: bs =>
    if a.toNat < b.toNat then true
    else if b.toNat < a.toNat then false
    else charListLe as bs

/-- The comparator `(a, b) => b.score - a.score || a.talk.start.localeCompare(b.talk.start)`
expressed as a may-come-before relation. -/
def talkLe (a b : EthccTalk × Nat) : Bool :=
  decide (b.2 < a.2) || (decide (a.2 = b.2) && charListLe a.1.start.data b.1.start.data)

/-- The scored-and-filtered intermediate list of `searchTalksLocal`. -/
def scoredOf (talks : List EthccTalk) (words : List (List Char)) : List (EthccTalk × Nat) :=
  (talks.map (fun t => (t, scoreTalk t words))).filter (fun p => decide (0 < p.2))

/-- `searchTalksLocal` of `ethcc-api.ts`. -/
def searchTalksLocal (talks : List EthccTalk) (query : String) : List EthccTalk :=
  let words := tokensOf query
  if words.isEmpty then talks
  else ((scoredOf talks words).mergeSort talkLe).map (fun p => p.1)

/-- The per-talk candidate fields in descending weight order, as the
spec describes them. -/
def fieldTexts (t : EthccTalk) : List (List Char × Nat) :=
  [(lowerData t.title, 3), (lowerData t.track, 2),
   (lowerData (speakersText t), 2), (lowerData t.description, 1)]

/-- Modelled from the spec wording for scoring: the weight of the
highest-priority field containing the token, the first hit winning. -/
def tokenWeight (t : EthccTalk) (w : List Char) : Nat :=
  match (fieldTexts t).find? (fun fw => listContains fw.1 w) with
  | some fw => fw.2
  | none => 0

/-- Modelled from the spec wording for scoring: the sum over tokens of
the best-field weight. -/
def scoreTalkSpec (t : EthccTalk) (words : List (List Char)) : Nat :=
  (words.map (tokenWeight t)).sum

/-! ### Calendar generation (`generateCalendarFile`, `escapeICS`) -/

/-- The talk shape accepted by the `generateCalendarFile` tool. -/
structure CalTalk where
  title : String
  start : String
  end_ : String
  room : Option String
  speakers : Option String
  description : Option String
deriving DecidableEq, Repr

/-- First replacement pass of `escapeICS`: backslash, semicolon and
comma are prefixed with a backslash. -/
def escapeICSChar1 (c : Char) : List Char :=
  if c = '\\' ∨ c = ';' ∨ c = ',' then ['\\', c] else [c]

/-- Second replacement pass of `escapeICS`: a line feed becomes the two
characters backslash-n. -/
def escapeNL (c : Char) : List Char :=
  if c = '\n' then ['\\', 'n'] else [c]

/-- `escapeICS` of `agent.ts`: the two chained global replaces. -/
def escapeICS (s : String) : String :=
  String.mk ((s.data.flatMap escapeICSChar1).flatMap escapeNL)

/-- Modelled from the spec wording for escaping: a single per-character
escape of backslash, semicolon, comma and newline. -/
def escCharSpec (c : Char) : List Char :=
  if c = '\\' ∨ c = ';' ∨ c = ',' then ['\\', c]
  else if c = '\n' then ['\\', 'n']
  else [c]

/-- Replace each maximal whitespace run with one hyphen; embeds
`replace(/\s+/g, "-")` (the flag tracks whether the previous character
was part of a run). -/
def collapseWsAux : Bool → List Char → List Char
  | _, [] => []
  | inRun, c :: cs =>
    if isJsSpace c then
      (if inRun then collapseWsAux true cs else '-' :: collapseWsAux true cs)
    else c :: collapseWsAux false cs

/-- Whitespace-run collapsing starting outside a run. -/
def collapseWs (l : List Char) : List Char :=
  collapseWsAux false l

/-- The slug part of an event UID:
`title.replace(/\s+/g, "-").toLowerCase().slice(0, 40)`. -/
def slug40 (title : String) : List Char :=
  ((collapseWs title.data).map Char.toLower).take 40

/-- `start.replace(/[-:]/g, "")`. -/
def stripDashColon (s : String) : List Char :=
  s.data.filter (fun c => ¬ (c = '-' ∨ c = ':'))

/-- The deterministic event UID derived from start time and slugified
title. -/
def uidOf (t : CalTalk) : String :=
  String.mk (stripDashColon t.start) ++ "-" ++ String.mk (slug40 t.title) ++ "@ethcc-planner"

/-- `talk.speakers ? "Speakers: " + talk.speakers : undefined` (an empty
string is falsy). -/
def speakersEntry (t : CalTalk) : Option String :=
  match t.speakers with
  | some s => if s = "" then none else some ("Speakers: " ++ s)
  | none => none

/-- JavaScript `array.filter(Boolean)` on possibly-undefined strings:
drops the undefined entries and the empty strings. -/
def jsTruthy (l : List (Option String)) : List String :=
  (l.filterMap id).filter (fun s => s ≠ "")

/-- The `descParts` array of an event. -/
def descPartsOf (t : CalTalk) : List String :=
  jsTruthy [t.description, speakersEntry t]

/-- The LOCATION text before escaping. -/
def locationText (t : CalTalk) : String :=
  (match t.room with
   | some r => if r = "" then "" else r ++ ", "
   | none => "") ++ "Palais des Festivals, Cannes"

/-- The event line array before the `filter(Boolean)` that drops the
empty DESCRIPTION placeholder. -/
def eventArray (t : CalTalk) : List String :=
  ["BEGIN:VEVENT",
   "UID:" ++ uidOf t,
   "DTSTART;TZID=Europe/Paris:" ++ String.mk (stripDashColon t.start),
   "DTEND;TZID=Europe/Paris:" ++ String.mk (stripDashColon t.end_),
   "SUMMARY:" ++ escapeICS t.title,
   (if descPartsOf t = [] then ""
    else "DESCRIPTION:" ++ escapeICS (strJoin "\n" (descPartsOf t))),
   "LOCATION:" ++ escapeICS (locationText t),
   "END:VEVENT"]

/-- The lines of one VEVENT block. -/
def eventLines (t : CalTalk) : List String :=
  (eventArray t).filter (fun s => s ≠ "")

/-- One VEVENT block as a string. -/
def eventBlock (t : CalTalk) : String :=
  strJoin "\r\n" (eventLines t)

/-- The lines of the fixed Europe/Paris VTIMEZONE block. -/
def tzLines : List String :=
  ["BEGIN:VTIMEZONE",
   "TZID:Europe/Paris",
   "BEGIN:DAYLIGHT",
   "TZOFFSETFROM:+0100",
   "TZOFFSETTO:+0200",
   "TZNAME:CEST",
   "DTSTART:19700329T020000",
   "RRULE:FREQ=YEARLY;BYMONTH=3;BYDAY=-1SU",
   "END:DAYLIGHT",
   "BEGIN:STANDARD",
   "TZOFFSETFROM:+0200",
   "TZOFFSETTO:+0100",
   "TZNAME:CET",
   "DTSTART:19701025T030000",
   "RRULE:FREQ=YEARLY;BYMONTH=10;BYDAY=-1SU",
   "END:STANDARD",
   "END:VTIMEZONE"]

/-- The pre-joined `VTIMEZONE_EUROPE_PARIS` constant. -/
def VTIMEZONE_EUROPE_PARIS : String :=
  strJoin "\r\n" tzLines

/-- The fixed calendar header lines. -/
def calHeaderLines : List String :=
  ["BEGIN:VCALENDAR",
   "VERSION:2.0",
   "PRODID:-//EthCC Planner//EN",
   "CALSCALE:GREGORIAN",
   "METHOD:PUBLISH",
   "X-WR-CALNAME:My EthCC Schedule",
   "X-WR-TIMEZONE:Europe/Paris"]

/-- The result shape of the `generateCalendarFile` tool. -/
structure CalendarOut where
  icsContent : String
  eventCount : Nat
  message : String
deriving DecidableEq

/-- The `generateCalendarFile` tool body of `agent.ts`. -/
def generateCalendarFile (talks : List CalTalk) : CalendarOut :=
  { icsContent := strJoin "\r\n"
      (calHeaderLines ++ [VTIMEZONE_EUROPE_PARIS] ++ talks.map eventBlock ++ ["END:VCALENDAR"]),
    eventCount := talks.length,
    message := "Generated calendar with " ++ toString talks.length
      ++ " event(s). Click the download button to save the .ics file." }

/-- The flat line decomposition of the generated calendar document. -/
def calLines (talks : List CalTalk) : List String :=
  calHeaderLines ++ tzLines ++ talks.flatMap eventLines ++ ["END:VCALENDAR"]

/-! ### The conversational agent (`ChatAgent`)

Messages carry a stable identifier, a role and typed parts; only text
parts are relevant to the embedded control flow, the other part kinds
are collapsed into a tagged constructor. -/

inductive Role
  | user
  | assistant
deriving DecidableEq, Repr

inductive MsgPart
  | text (s : String)
  | other (tag : String)
deriving DecidableEq, Repr

structure ChatMessage where
  id : String
  role : Role
  parts : List MsgPart
deriving DecidableEq, Repr

/-- `TwitterInterestProfile` of `twitter-workflow.ts`. -/
structure TwitterInterestProfile where
  handle : String
  interests : List String
  summary : String
  tweetCount : Nat
deriving DecidableEq, Repr

/-- The agent state bag (its only field is the derived profile). -/
structure AgentState where
  twitterProfile : Option TwitterInterestProfile
deriving DecidableEq, Repr

structure Agent where
  messages : List ChatMessage
  state : AgentState
deriving DecidableEq, Repr

/-- The text of a text part. -/
def partText? : MsgPart → Option String
  | MsgPart.text s => some s
  | MsgPart.other _ => none

/-- The user text of the last message:
`parts.filter(text).map(p => p.text).join(" ")` when the last message is
a user turn, the empty string otherwise. -/
def userTextOf (msgs : List ChatMessage) : String :=
  match msgs.getLast? with
  | some m => if m.role = Role.user then strJoin " " (m.parts.filterMap partText?) else ""
  | none => ""

/-- The fixed deterministic refusal reply of the injection path. -/
def refusalReply : String :=
  "I can only help with EthCC[8] planning — ask me about talks, speakers, tracks, or scheduling!"

/-- The fixed deterministic acknowledgement reply of the handle path. -/
def workingReply (handle : String) : String :=
  "I" ++ apos ++ "m analyzing @" ++ handle
    ++ apos ++ "s Twitter profile — this takes about 30 seconds. I"
    ++ apos ++ "ll share your interests and recommend talks once it"
    ++ apos ++ "s done."

/-- The observable actions of one `onChatMessage` invocation, in program
order: a `setState` call, a `runWorkflow` call with the workflow name
and the handle parameter, a returned plaintext `Response`, or entering
the `streamText` reasoning loop. -/
inductive ChatEvent
  | setStateEv (st : AgentState)
  | runWorkflowEv (workflow : String) (handle : String)
  | respondEv (text : String)
  | streamTextEv
deriving DecidableEq, Repr

structure ChatResult where
  agent : Agent
  trace : List ChatEvent
deriving DecidableEq, Repr

namespace ChatAgent

/-- `ChatAgent.onChatMessage`: the injection guard, then the
handle-extraction guard (the spread `{...this.state, twitterProfile:
undefined}` is the state whose only field is cleared), then the
reasoning path. -/
def onChatMessage (a : Agent) : ChatResult :=
  let userText := userTextOf a.messages
  if userText ≠ "" ∧ detectInjection userText = true then
    { agent := a, trace := [ChatEvent.respondEv refusalReply] }
  else
    match (if userText ≠ "" then extractTwitterHandle userText else none) with
    | some twitterHandle =>
      { agent := { messages := a.messages, state := { twitterProfile := none } },
        trace := [ChatEvent.setStateEv { twitterProfile := none },
                  ChatEvent.runWorkflowEv "TWITTER_ANALYSIS_WORKFLOW" twitterHandle,
                  ChatEvent.respondEv (workingReply twitterHandle)] }
    | none =>
      { agent := a, trace := [ChatEvent.streamTextEv] }

end ChatAgent

/-! ### Background workflow completion delivery -/

/-- A websocket broadcast of the completion handler. -/
inductive Broadcast
  | workflowError (e : String)
  | workflowComplete (p : TwitterInterestProfile)
deriving DecidableEq, Repr

/-- The deterministic failure-message identifier for a subject handle. -/
def errorMsgId (handle : String) : String :=
  "twitter-error-" ++ handle

/-- The deterministic success-message identifier for a subject handle. -/
def profileMsgId (handle : String) : String :=
  "twitter-profile-" ++ handle

/-- The failure message text appended by `onWorkflowComplete`. -/
def errorMsgText (e : String) : String :=
  "I couldn" ++ apos ++ "t analyze that Twitter profile: " ++ e
    ++ "\n\nYou can try a different handle, or just tell me your interests directly (e.g. \"I"
    ++ apos ++ "m into DeFi, ZK proofs, and stablecoins\") and I"
    ++ apos ++ "ll find matching talks!"

/-- The success message text appended by `onWorkflowComplete`. -/
def profileMsgText (p : TwitterInterestProfile) : String :=
  "Based on your Twitter profile (@" ++ p.handle ++ "), here are your interests:\n\n"
    ++ strJoin "\n" (p.interests.map (fun i => "- " ++ i))
    ++ "\n\n" ++ p.summary
    ++ "\n\nWant me to find EthCC talks matching these interests? You can also refine or add topics."

/-- `TwitterWorkflowResult`: either the typed error `{handle, error}` or
a success profile. -/
inductive TWResult
  | err (handle : String) (error : String)
  | ok (p : TwitterInterestProfile)
deriving DecidableEq, Repr

/-- The observable outcome of one `onWorkflowComplete` invocation: the
message list after the call, the broadcasts emitted, and whether
`persistMessages` ran. -/
structure WFDelivery where
  messages : List ChatMessage
  broadcasts : List Broadcast
  persisted : Bool
deriving DecidableEq, Repr

namespace ChatAgent

/-- `ChatAgent.onWorkflowComplete`.  The source guard
`if (profile.interests)` is always satisfied by a present array value
and is therefore not represented. -/
def onWorkflowComplete (msgs : List ChatMessage) (result : Option TWResult) : WFDelivery :=
  match result with
  | none => { messages := msgs, broadcasts := [], persisted := false }
  | some (TWResult.err handle e) =>
    let msgId := errorMsgId handle
    let newMsg : ChatMessage :=
      { id := msgId, role := Role.assistant, parts := [MsgPart.text (errorMsgText e)] }
    if msgs.any (fun m => m.id = msgId) then
      { messages := msgs, broadcasts := [Broadcast.workflowError e], persisted := false }
    else
      { messages := msgs ++ [newMsg],
        broadcasts := [Broadcast.workflowError e], persisted := true }
  | some (TWResult.ok p) =>
    let msgId := profileMsgId p.handle
    let newMsg : ChatMessage :=
      { id := msgId, role := Role.assistant, parts := [MsgPart.text (profileMsgText p)] }
    if msgs.any (fun m => m.id = msgId) then
      { messages := msgs, broadcasts := [Broadcast.workflowComplete p], persisted := false }
    else
      { messages := msgs ++ [newMsg],
        broadcasts := [Broadcast.workflowComplete p], persisted := true }

end ChatAgent

/-- The number of messages carrying a given identifier. -/
def countMsgId (msgs : List ChatMessage) (i : String) : Nat :=
  msgs.countP (fun m => m.id = i)

/-! ### The analysis workflow (`TwitterAnalysisWorkflow.run`)

The two external effects inside the steps — the Apify scrape and the
model call followed by `JSON.parse` — are oracles of the embedding: the
scrape result is passed in directly, and `llmParsed` is the outcome of
parsing the cleaned model response (`none` when `JSON.parse` threw).  A
step body throwing is embedded as `Except.error`. -/

structure ScrapedTweet where
  text : String
  createdAt : String
  likeCount : Nat
  retweetCount : Nat
deriving DecidableEq, Repr

/-- `ScrapeResult` of `twitter-scraper.ts`. -/
structure ScrapeResult where
  handle : String
  tweets : List ScrapedTweet
  tweetCount : Nat
deriving DecidableEq, Repr

/-- A progress event `{step, status, message, percent}`; the
floating-point percentages of the source are modelled as rationals. -/
structure ProgressEvent where
  step : String
  status : String
  message : String
  percent : Option ℚ
deriving DecidableEq, Repr

/-- The shape `JSON.parse` is expected to produce for the model
response. -/
structure ParsedInterests where
  interests : List String
  summary : String
deriving DecidableEq, Repr

/-- The trace of one workflow run: progress events in order, the
`reportComplete` calls in order, the merged agent state, whether the
summarize step body was entered, and the returned value. -/
structure RunTrace where
  progressEvents : List ProgressEvent
  completions : List TWResult
  mergedState : Option TwitterInterestProfile
  summarizeExecuted : Bool
  returned : TWResult
deriving DecidableEq, Repr

def fetchingMsg (handle : String) : String :=
  "Fetching latest tweets from @" ++ handle ++ "..."

def fetchedMsg (n : Nat) (handle : String) : String :=
  "Fetched " ++ toString n ++ " tweets from @" ++ handle

/-- The early-exit error message for a subject with no tweets. -/
def noTweetsMsg (handle : String) : String :=
  "No tweets found for @" ++ handle ++ ". The account may not exist, be private, or have no tweets."

/-- The thrown message when all tweets are too short to use. -/
def noUsableMsg (handle : String) : String :=
  "No usable tweet content found for @" ++ handle ++ ". The account may be private or only has very short tweets."

def analyzeCompleteMsg (nInterests nTweets : Nat) : String :=
  "Identified " ++ toString nInterests ++ " interests from " ++ toString nTweets ++ " tweets"

/-- The summary of the fallback profile used when the model response
cannot be parsed. -/
def fallbackSummary (handle : String) : String :=
  "Based on @" ++ handle ++ apos ++ "s tweets, they appear interested in blockchain and crypto topics."

namespace TwitterAnalysisWorkflow

/-- `TwitterAnalysisWorkflow.run`. -/
def run (handle : String) (scrapeResult : ScrapeResult) (llmParsed : Option ParsedInterests) :
    Except String RunTrace :=
  let scrapeProgress : List ProgressEvent :=
    [{ step := "scrape", status := "running", message := fetchingMsg handle,
       percent := some (1/10) },
     { step := "scrape", status := "complete",
       message := fetchedMsg scrapeResult.tweetCount handle, percent := some (4/10) }]
  if scrapeResult.tweetCount = 0 then
    let errorMsg := noTweetsMsg handle
    let errorResult := TWResult.err handle errorMsg
    Except.ok
      { progressEvents := scrapeProgress ++
          [{ step := "scrape", status := "error", message := errorMsg, percent := none }],
        completions := [errorResult],
        mergedState := none,
        summarizeExecuted := false,
        returned := errorResult }
  else
    let filteredTweets := (scrapeResult.tweets.map (fun t => t.text)).filter (fun t => 10 < t.length)
    if filteredTweets.isEmpty then
      Except.error (noUsableMsg handle)
    else
      let parsed : ParsedInterests :=
        match llmParsed with
        | some p => p
        | none => { interests := ["Ethereum", "blockchain"], summary := fallbackSummary handle }
      let profile : TwitterInterestProfile :=
        { handle := handle, interests := parsed.interests.take 10,
          summary := parsed.summary, tweetCount := scrapeResult.tweetCount }
      Except.ok
        { progressEvents := scrapeProgress ++
            [{ step := "analyze", status := "running",
               message := "Analyzing interests from tweets...", percent := some (1/2) },
             { step := "analyze", status := "complete",
               message := analyzeCompleteMsg profile.interests.length profile.tweetCount,
               percent := some (9/10) },
             { step := "done", status := "complete", message := "Analysis complete!",
               percent := some 1 }],
          completions := [TWResult.ok profile],
          mergedState := some profile,
          summarizeExecuted := true,
          returned := TWResult.ok profile }

end TwitterAnalysisWorkflow

/-- The trace of a run whose scrape step found no tweets. -/
def zeroTweetTrace (handle : String) : RunTrace :=
  { progressEvents :=
      [{ step := "scrape", status := "running", message := fetchingMsg handle,
         percent := some (1/10) },
       { step := "scrape", status := "complete", message := fetchedMsg 0 handle,
         percent := some (4/10) },
       { step := "scrape", status := "error", message := noTweetsMsg handle, percent := none }],
    completions := [TWResult.err handle (noTweetsMsg handle)],
    mergedState := none,
    summarizeExecuted := false,
    returned := TWResult.err handle (noTweetsMsg handle) }

/-- The fallback profile produced when the model response cannot be
parsed. -/
def fallbackProfile (handle : String) (tweetCount : Nat) : TwitterInterestProfile :=
  { handle := handle, interests := ["Ethereum", "blockchain"],
    summary := fallbackSummary handle, tweetCount := tweetCount }

/-- The trace of a run whose model response could not be parsed (the
fallback profile has exactly two interests). -/
def fallbackTrace (handle : String) (tweetCount : Nat) : RunTrace :=
  { progressEvents :=
      [{ step := "scrape", status := "running", message := fetchingMsg handle,
         percent := some (1/10) },
       { step := "scrape", status := "complete", message := fetchedMsg tweetCount handle,
         percent := some (4/10) },
       { step := "analyze", status := "running",
         message := "Analyzing interests from tweets...", percent := some (1/2) },
       { step := "analyze", status := "complete",
         message := analyzeCompleteMsg 2 tweetCount, percent := some (9/10) },
       { step := "done", status := "complete", message := "Analysis complete!",
         percent := some 1 }],
    completions := [TWResult.ok (fallbackProfile handle tweetCount)],
    mergedState := some (fallbackProfile handle tweetCount),
    summarizeExecuted := true,
    returned := TWResult.ok (fallbackProfile handle tweetCount) }

/-! ### Concrete sample values used to instantiate the theorems -/

def wScrapeZero : ScrapeResult :=
  { handle := "vitalik", tweets := [], tweetCount := 0 }

def wTweetLong : ScrapedTweet :=
  { text := "gm ethereum builders shipping rollups today", createdAt := "2025-06-01",
    likeCount := 3, retweetCount := 1 }

def wScrapeOne : ScrapeResult :=
  { handle := "vitalik", tweets := [wTweetLong], tweetCount := 1 }

def wAgentInj : Agent :=
  { messages := [{ id := "u1", role := Role.user, parts := [MsgPart.text "jailbreak"] }],
    state := { twitterProfile := none } }

def wAgentUrl : Agent :=
  { messages := [{ id := "u1", role := Role.user, parts := [MsgPart.text "x.com/vitalik"] }],
    state := { twitterProfile := none } }

def wSpeaker : EthccSpeaker :=
  { displayName := "Vitalik Buterin", organization := "EF" }

def wTalkA : EthccTalk :=
  { id := "1", slug := "defi-deep-dive", title := "DeFi Deep Dive",
    start := "2025-06-30T10:00:00", end_ := "2025-06-30T10:20:00", resourceId := "r1",
    description := "about lending markets", track := "DeFi", type_ := "Talk",
    speakersData := [wSpeaker] }

def wCalTalk : CalTalk :=
  { title := "My Talk; One", start := "2025-06-30T15:25:00", end_ := "2025-06-30T15:45:00",
    room := some "kelly-stage", speakers := some "Alice (Org1)",
    description := some "desc, with comma" }

/-! ## Theorems -/

theorem countMsgId_append (l1 l2 : List ChatMessage) (i : String) :
    countMsgId (l1 ++ l2) i = countMsgId l1 i + countMsgId l2 i := by
  simp [countMsgId, List.countP_append]

/-- C1: delivering the same completion result to a session twice appends
exactly one assistant message: the message identifier is derived
deterministically from the subject handle, the append is skipped when a
message with that identifier exists, so delivering a result a second
time leaves the message list of the first delivery unchanged, and one
delivery grows the list by at most one message. -/
theorem onWorkflowComplete_duplicate_idempotent (msgs : List ChatMessage) (r : TWResult) :
    (ChatAgent.onWorkflowComplete
        (ChatAgent.onWorkflowComplete msgs (some r)).messages (some r)).messages
      = (ChatAgent.onWorkflowComplete msgs (some r)).messages
    ∧ (ChatAgent.onWorkflowComplete msgs (some r)).messages.length ≤ msgs.length + 1 := by
  cases r with
  | err handle e =>
    cases hany : msgs.any (fun m => m.id = errorMsgId handle) with
    | true => simp [ChatAgent.onWorkflowComplete, hany]
    | false => simp [ChatAgent.onWorkflowComplete, hany, List.any_append]
  | ok p =>
    cases hany : msgs.any (fun m => m.id = profileMsgId p.handle) with
    | true => simp [ChatAgent.onWorkflowComplete, hany]
    | false => simp [ChatAgent.onWorkflowComplete, hany, List.any_append]

theorem onWorkflowComplete_err_count (msgs : List ChatMessage) (handle e : String) :
    countMsgId (ChatAgent.onWorkflowComplete msgs (some (TWResult.err handle e))).messages
        (errorMsgId handle)
      = max (countMsgId msgs (errorMsgId handle)) 1 := by
  cases hany : msgs.any (fun m => m.id = errorMsgId handle) with
  | true =>
    have hpos : 0 < countMsgId msgs (errorMsgId handle) := by
      rcases List.any_eq_true.mp hany with ⟨m, hm, hid⟩
      exact List.countP_pos_iff.mpr ⟨m, hm, hid⟩
    simp [ChatAgent.onWorkflowComplete, hany]
    omega
  | false =>
    have hz : countMsgId msgs (errorMsgId handle) = 0 := by
      refine List.countP_eq_zero.mpr ?_
      intro m hm
      exact (List.any_eq_false.mp hany) m hm
    simp only [countMsgId] at hz
    simp [ChatAgent.onWorkflowComplete, hany, countMsgId_append, countMsgId]
    omega

/-- C2: a run whose scrape step finds zero tweets exits early through
the normal completion path with the typed error value, never entering
the summarize step, and the completion handler appends at most one
failure message with the identifier derived from the subject handle. -/
theorem zero_tweets_early_exit (handle : String) (sr : ScrapeResult)
    (llmParsed : Option ParsedInterests) (msgs : List ChatMessage)
    (h0 : sr.tweetCount = 0) :
    TwitterAnalysisWorkflow.run handle sr llmParsed = Except.ok (zeroTweetTrace handle)
    ∧ (zeroTweetTrace handle).completions = [TWResult.err handle (noTweetsMsg handle)]
    ∧ (zeroTweetTrace handle).summarizeExecuted = false
    ∧ countMsgId
        (ChatAgent.onWorkflowComplete msgs
          (some (TWResult.err handle (noTweetsMsg handle)))).messages
        (errorMsgId handle)
      = max (countMsgId msgs (errorMsgId handle)) 1 := by
  refine ⟨?_, rfl, rfl, onWorkflowComplete_err_count msgs handle (noTweetsMsg handle)⟩
  simp [TwitterAnalysisWorkflow.run, h0, zeroTweetTrace]

theorem zero_tweets_early_exit_witness :
    wScrapeZero.tweetCount = 0
    ∧ (TwitterAnalysisWorkflow.run "vitalik" wScrapeZero none
        = Except.ok (zeroTweetTrace "vitalik")
      ∧ (zeroTweetTrace "vitalik").completions
          = [TWResult.err "vitalik" (noTweetsMsg "vitalik")]
      ∧ (zeroTweetTrace "vitalik").summarizeExecuted = false
      ∧ countMsgId
          (ChatAgent.onWorkflowComplete []
            (some (TWResult.err "vitalik" (noTweetsMsg "vitalik")))).messages
          (errorMsgId "vitalik")
        = max (countMsgId [] (errorMsgId "vitalik")) 1) :=
  ⟨rfl, zero_tweets_early_exit "vitalik" wScrapeZero none [] rfl⟩

/-- C7: when the model response cannot be parsed as JSON the summarize
step falls back to the generic two-interest profile naming the handle
and the run still terminates through the success path. -/
theorem malformed_llm_response_fallback (handle : String) (sr : ScrapeResult)
    (hn : sr.tweetCount ≠ 0)
    (ht : ((sr.tweets.map (fun t => t.text)).filter (fun t => 10 < t.length)).isEmpty = false) :
    TwitterAnalysisWorkflow.run handle sr none = Except.ok (fallbackTrace handle sr.tweetCount)
    ∧ (fallbackTrace handle sr.tweetCount).returned
        = TWResult.ok (fallbackProfile handle sr.tweetCount)
    ∧ (fallbackProfile handle sr.tweetCount).handle = handle
    ∧ (fallbackProfile handle sr.tweetCount).interests = ["Ethereum", "blockchain"]
    ∧ (fallbackProfile handle sr.tweetCount).summary = fallbackSummary handle := by
  refine ⟨?_, rfl, rfl, rfl, rfl⟩
  simp [TwitterAnalysisWorkflow.run, hn, ht, fallbackTrace, fallbackProfile]

theorem malformed_llm_response_fallback_witness :
    (wScrapeOne.tweetCount ≠ 0
      ∧ ((wScrapeOne.tweets.map (fun t => t.text)).filter (fun t => 10 < t.length)).isEmpty
          = false)
    ∧ (TwitterAnalysisWorkflow.run "vitalik" wScrapeOne none
        = Except.ok (fallbackTrace "vitalik" wScrapeOne.tweetCount)
      ∧ (fallbackTrace "vitalik" wScrapeOne.tweetCount).returned
          = TWResult.ok (fallbackProfile "vitalik" wScrapeOne.tweetCount)
      ∧ (fallbackProfile "vitalik" wScrapeOne.tweetCount).handle = "vitalik"
      ∧ (fallbackProfile "vitalik" wScrapeOne.tweetCount).interests
          = ["Ethereum", "blockchain"]
      ∧ (fallbackProfile "vitalik" wScrapeOne.tweetCount).summary
          = fallbackSummary "vitalik") :=
  ⟨⟨by decide, by decide⟩,
    malformed_llm_response_fallback "vitalik" wScrapeOne (by decide) (by decide)⟩

theorem detectInjection_empty : detectInjection "" = false := rfl

theorem extractTwitterHandle_empty : extractTwitterHandle "" = none := rfl

/-- C3: a user turn flagged by the injection patterns makes
`onChatMessage` return the fixed deterministic refusal reply and the
reasoning engine (`streamText`) is never invoked. -/
theorem injection_refusal_no_reasoning (a : Agent)
    (hinj : detectInjection (userTextOf a.messages) = true) :
    (ChatAgent.onChatMessage a).trace = [ChatEvent.respondEv refusalReply]
    ∧ ChatEvent.streamTextEv ∉ (ChatAgent.onChatMessage a).trace := by
  have hne : userTextOf a.messages ≠ "" := by
    intro h
    rw [h] at hinj
    exact absurd hinj (by decide)
  constructor
  · simp [ChatAgent.onChatMessage, hne, hinj]
  · simp [ChatAgent.onChatMessage, hne, hinj]

theorem injection_refusal_no_reasoning_witness :
    detectInjection (userTextOf wAgentInj.messages) = true
    ∧ ((ChatAgent.onChatMessage wAgentInj).trace = [ChatEvent.respondEv refusalReply]
      ∧ ChatEvent.streamTextEv ∉ (ChatAgent.onChatMessage wAgentInj).trace) :=
  ⟨by decide, injection_refusal_no_reasoning wAgentInj (by decide)⟩

/-- C10: on the injection-refusal path `onChatMessage` mutates nothing:
the message list and the derived state are unchanged and the trace
holds the returned refusal only — no `setState`, no `runWorkflow`, no
reasoning invocation, no message append, no persistence. -/
theorem injection_path_frame (a : Agent)
    (hinj : detectInjection (userTextOf a.messages) = true) :
    (ChatAgent.onChatMessage a).agent.messages = a.messages
    ∧ (ChatAgent.onChatMessage a).agent.state = a.state
    ∧ (ChatAgent.onChatMessage a).trace = [ChatEvent.respondEv refusalReply] := by
  have hne : userTextOf a.messages ≠ "" := by
    intro h
    rw [h] at hinj
    exact absurd hinj (by decide)
  refine ⟨?_, ?_, ?_⟩ <;> simp [ChatAgent.onChatMessage, hne, hinj]

theorem injection_path_frame_witness :
    detectInjection (userTextOf wAgentInj.messages) = true
    ∧ ((ChatAgent.onChatMessage wAgentInj).agent.messages = wAgentInj.messages
      ∧ (ChatAgent.onChatMessage wAgentInj).agent.state = wAgentInj.state
      ∧ (ChatAgent.onChatMessage wAgentInj).trace = [ChatEvent.respondEv refusalReply]) :=
  ⟨by decide, injection_path_frame wAgentInj (by decide)⟩

/-- C4: a non-injection turn from which a handle is extracted clears the
derived profile, then starts exactly one TWITTER_ANALYSIS_WORKFLOW run
for that handle, then returns the fixed acknowledgement reply, never
reaching the reasoning engine. -/
theorem handle_turn_starts_single_workflow (a : Agent) (h : String)
    (hinj : detectInjection (userTextOf a.messages) = false)
    (hex : extractTwitterHandle (userTextOf a.messages) = some h) :
    ChatAgent.onChatMessage a =
      { agent := { messages := a.messages, state := { twitterProfile := none } },
        trace := [ChatEvent.setStateEv { twitterProfile := none },
                  ChatEvent.runWorkflowEv "TWITTER_ANALYSIS_WORKFLOW" h,
                  ChatEvent.respondEv (workingReply h)] } := by
  have hne : userTextOf a.messages ≠ "" := by
    intro hemp
    rw [hemp, extractTwitterHandle_empty] at hex
    exact Option.noConfusion hex
  simp [ChatAgent.onChatMessage, hne, hinj, hex]

theorem handle_turn_starts_single_workflow_witness :
    (detectInjection (userTextOf wAgentUrl.messages) = false
      ∧ extractTwitterHandle (userTextOf wAgentUrl.messages) = some "vitalik")
    ∧ ChatAgent.onChatMessage wAgentUrl =
      { agent := { messages := wAgentUrl.messages, state := { twitterProfile := none } },
        trace := [ChatEvent.setStateEv { twitterProfile := none },
                  ChatEvent.runWorkflowEv "TWITTER_ANALYSIS_WORKFLOW" "vitalik",
                  ChatEvent.respondEv (workingReply "vitalik")] } :=
  ⟨⟨by decide, by decide⟩,
    handle_turn_starts_single_workflow wAgentUrl "vitalik" (by decide) (by decide)⟩

theorem scoreStep_eq (t : EthccTalk) (s : Nat) (w : List Char) :
    (if listContains (lowerData t.title) w then s + 3
     else if listContains (lowerData t.track) w then s + 2
     else if listContains (lowerData (speakersText t)) w then s + 2
     else if listContains (lowerData t.description) w then s + 1
     else s) = s + tokenWeight t w := by
  cases h1 : listContains (lowerData t.title) w <;>
    cases h2 : listContains (lowerData t.track) w <;>
      cases h3 : listContains (lowerData (speakersText t)) w <;>
        cases h4 : listContains (lowerData t.description) w <;>
          simp [tokenWeight, fieldTexts, List.find?, h1, h2, h3, h4]

theorem scoreTalk_foldl_eq (t : EthccTalk) :
    ∀ (words : List (List Char)) (s : Nat),
      words.foldl (fun score w =>
        if listContains (lowerData t.title) w then score + 3
        else if listContains (lowerData t.track) w then score + 2
        else if listContains (lowerData (speakersText t)) w then score + 2
        else if listContains (lowerData t.description) w then score + 1
        else score) s = s + scoreTalkSpec t words := by
  intro words
  induction words with
  | nil => intro s; simp [scoreTalkSpec]
  | cons w ws ih =>
    intro s
    have hstep := scoreStep_eq t s w
    simp only [List.foldl_cons, hstep, ih]
    simp [scoreTalkSpec]
    omega

theorem scoreTalk_eq_spec (t : EthccTalk) (words : List (List Char)) :
    scoreTalk t words = scoreTalkSpec t words := by
  have h := scoreTalk_foldl_eq t words 0
  simpa [scoreTalk] using h

theorem charListLe_total : ∀ a b : List Char, charListLe a b = true ∨ charListLe b a = true := by
  intro a
  induction a with
  | nil => intro b; left; simp [charListLe]
  | cons x xs ih =>
    intro b
    cases b with
    | nil => right; simp [charListLe]
    | cons y ys =>
      rcases Nat.lt_trichotomy x.toNat y.toNat with h | h | h
      · left; simp [charListLe, h]
      · rcases ih ys with hc | hc
        · left; simp [charListLe, h, hc]
        · right; simp [charListLe, h, hc]
      · right; simp [charListLe, h, Nat.lt_asymm h]

theorem charListLe_trans :
    ∀ a b c : List Char, charListLe a b = true → charListLe b c = true →
      charListLe a c = true := by
  intro a
  induction a with
  | nil => intro b c _ _; simp [charListLe]
  | cons x xs ih =>
    intro b c h1 h2
    cases b with
    | nil => simp [charListLe] at h1
    | cons y ys =>
      cases c with
      | nil => simp [charListLe] at h2
      | cons z zs =>
        simp only [charListLe] at h1 h2 ⊢
        split_ifs at h1 h2 ⊢ <;> first
          | rfl
          | omega
          | exact ih ys zs h1 h2

theorem talkLe_total : ∀ a b : EthccTalk × Nat, (talkLe a b || talkLe b a) = true := by
  intro a b
  simp only [talkLe, Bool.or_eq_true, Bool.and_eq_true, decide_eq_true_eq]
  rcases Nat.lt_trichotomy a.2 b.2 with h | h | h
  · right; left; exact h
  · rcases charListLe_total a.1.start.data b.1.start.data with hc | hc
    · left; right; exact ⟨h, hc⟩
    · right; right; exact ⟨h.symm, hc⟩
  · left; left; exact h

theorem talkLe_trans :
    ∀ a b c : EthccTalk × Nat, talkLe a b = true → talkLe b c = true →
      talkLe a c = true := by
  intro a b c h1 h2
  simp only [talkLe, Bool.or_eq_true, Bool.and_eq_true, decide_eq_true_eq] at h1 h2 ⊢
  rcases h1 with h1 | ⟨h1e, h1c⟩ <;> rcases h2 with h2 | ⟨h2e, h2c⟩
  · left; omega
  · left; omega
  · left; omega
  · right; exact ⟨h1e.trans h2e, charListLe_trans _ _ _ h1c h2c⟩

theorem snd_eq_of_mem_scoredOf (talks : List EthccTalk) (words : List (List Char)) :
    ∀ x ∈ scoredOf talks words, x.2 = scoreTalk x.1 words ∧ 0 < x.2 := by
  intro x hx
  rcases List.mem_filter.mp hx with ⟨hmem, hscore⟩
  rcases List.mem_map.mp hmem with ⟨u, hu, rfl⟩
  exact ⟨rfl, by simpa using hscore⟩

theorem map_fst_scoredOf (talks : List EthccTalk) (words : List (List Char)) :
    (scoredOf talks words).map (fun p => p.1)
      = talks.filter (fun t => decide (0 < scoreTalk t words)) := by
  simp [scoredOf, List.filter_map, List.map_map, Function.comp_def]

theorem tokensOf_isEmpty_false (query : String) (hq : tokensOf query ≠ []) :
    (tokensOf query).isEmpty = false := by
  cases h : tokensOf query with
  | nil => exact absurd h hq
  | cons w ws => simp [h, List.isEmpty]

theorem searchTalksLocal_eq_map (talks : List EthccTalk) (query : String)
    (hq : tokensOf query ≠ []) :
    searchTalksLocal talks query
      = ((scoredOf talks (tokensOf query)).mergeSort talkLe).map (fun p => p.1) := by
  simp [searchTalksLocal, tokensOf_isEmpty_false query hq]

theorem searchTalksLocal_perm (talks : List EthccTalk) (query : String)
    (hq : tokensOf query ≠ []) :
    (searchTalksLocal talks query).Perm
      (talks.filter (fun t => decide (0 < scoreTalk t (tokensOf query)))) := by
  rw [searchTalksLocal_eq_map talks query hq, ← map_fst_scoredOf talks (tokensOf query)]
  exact (List.mergeSort_perm (scoredOf talks (tokensOf query)) talkLe).map _

theorem searchTalksLocal_pairwise (talks : List EthccTalk) (query : String)
    (hq : tokensOf query ≠ []) :
    (searchTalksLocal talks query).Pairwise (fun a b =>
      scoreTalk b (tokensOf query) < scoreTalk a (tokensOf query)
      ∨ (scoreTalk a (tokensOf query) = scoreTalk b (tokensOf query)
          ∧ charListLe a.start.data b.start.data = true)) := by
  rw [searchTalksLocal_eq_map talks query hq]
  rw [List.pairwise_map]
  have hsorted := List.sorted_mergeSort talkLe_trans talkLe_total
    (scoredOf talks (tokensOf query))
  have hmem : ∀ x ∈ (scoredOf talks (tokensOf query)).mergeSort talkLe,
      x.2 = scoreTalk x.1 (tokensOf query) := by
    intro x hx
    have hx' := (List.mergeSort_perm (scoredOf talks (tokensOf query)) talkLe).mem_iff.mp hx
    exact (snd_eq_of_mem_scoredOf talks (tokensOf query) x hx').1
  refine hsorted.imp_of_mem ?_
  intro a b ha hb hle
  simp only [talkLe, Bool.or_eq_true, Bool.and_eq_true, decide_eq_true_eq] at hle
  rw [hmem a ha, hmem b hb] at hle
  exact hle

/-- C5: with at least one usable token, the search returns exactly the
positively scored items (as a permutation of the score filter), ranked
by descending score with ties broken by ascending start-time order, and
the implemented score coincides with the specified
highest-priority-field-wins token sum. -/
theorem searchTalksLocal_scores_and_ranks (talks : List EthccTalk) (query : String)
    (t : EthccTalk) (hq : tokensOf query ≠ []) :
    (searchTalksLocal talks query).Perm
      (talks.filter (fun u => decide (0 < scoreTalk u (tokensOf query))))
    ∧ (searchTalksLocal talks query).Pairwise (fun a b =>
        scoreTalk b (tokensOf query) < scoreTalk a (tokensOf query)
        ∨ (scoreTalk a (tokensOf query) = scoreTalk b (tokensOf query)
            ∧ charListLe a.start.data b.start.data = true))
    ∧ scoreTalk t (tokensOf query) = scoreTalkSpec t (tokensOf query) :=
  ⟨searchTalksLocal_perm talks query hq,
   searchTalksLocal_pairwise talks query hq,
   scoreTalk_eq_spec t (tokensOf query)⟩

theorem searchTalksLocal_scores_and_ranks_witness :
    tokensOf "defi" ≠ []
    ∧ ((searchTalksLocal [wTalkA] "defi").Perm
        ([wTalkA].filter (fun u => decide (0 < scoreTalk u (tokensOf "defi"))))
      ∧ (searchTalksLocal [wTalkA] "defi").Pairwise (fun a b =>
          scoreTalk b (tokensOf "defi") < scoreTalk a (tokensOf "defi")
          ∨ (scoreTalk a (tokensOf "defi") = scoreTalk b (tokensOf "defi")
              ∧ charListLe a.start.data b.start.data = true))
      ∧ scoreTalk wTalkA (tokensOf "defi") = scoreTalkSpec wTalkA (tokensOf "defi")) :=
  ⟨by decide, searchTalksLocal_scores_and_ranks [wTalkA] "defi" wTalkA (by decide)⟩

/-- C6 counterexample: for the query "ab" every token is shorter than 3
characters, the token list is empty, and `searchTalksLocal` returns the
whole input list, so the result contains an item whose total match score
against the (empty) token set is 0. -/
theorem searchByQuery_zero_score_counterexample :
    wTalkA ∈ searchTalksLocal [wTalkA] "ab"
    ∧ scoreTalk wTalkA (tokensOf "ab") = 0 := by
  constructor
  · decide
  · decide

/-- C6 amended: whenever the query has at least one token of length at
least 3, the result of `searchTalksLocal` contains no item whose total
match score against the query tokens is 0. -/
theorem searchByQuery_no_zero_score (talks : List EthccTalk) (query : String)
    (t : EthccTalk) (hq : tokensOf query ≠ [])
    (hmem : t ∈ searchTalksLocal talks query) :
    scoreTalk t (tokensOf query) ≠ 0 := by
  have hperm := searchTalksLocal_perm talks query hq
  have hmem' := hperm.mem_iff.mp hmem
  have := (List.mem_filter.mp hmem').2
  simp only [decide_eq_true_eq] at this
  omega

theorem searchByQuery_no_zero_score_witness :
    (tokensOf "defi" ≠ [] ∧ wTalkA ∈ searchTalksLocal [wTalkA] "defi")
    ∧ scoreTalk wTalkA (tokensOf "defi") ≠ 0 := by
  have hq : tokensOf "defi" ≠ [] := by decide
  have hmem : wTalkA ∈ searchTalksLocal [wTalkA] "defi" :=
    (searchTalksLocal_perm [wTalkA] "defi" hq).mem_iff.mpr (by decide)
  exact ⟨⟨hq, hmem⟩, searchByQuery_no_zero_score [wTalkA] "defi" wTalkA hq hmem⟩

theorem countdown_le (hi lo k : Nat) (hk : k ∈ countdown hi lo) : k ≤ hi := by
  simp only [countdown] at hk
  split at hk
  · simp at hk
  · rcases List.mem_map.mp hk with ⟨i, _, rfl⟩
    omega

theorem classRun_take (p : Char → Bool) :
    ∀ (l : List Char) (k : Nat), k ≤ classRun p l → ∀ c ∈ l.take k, p c = true := by
  intro l
  induction l with
  | nil => intro k _ c hc; simp at hc
  | cons x xs ih =>
    intro k hk c hc
    cases k with
    | zero => simp at hc
    | succ k' =>
      simp only [classRun] at hk
      cases hx : p x with
      | true =>
        rw [hx] at hk
        simp only [if_true] at hk
        rcases List.mem_cons.mp (by simpa using hc) with rfl | hc'
        · exact hx
        · exact ih k' (by omega) c hc'
      | false =>
        rw [hx] at hk
        simp at hk

theorem mrun_cap_word (re : RE) :
    ∀ (prev : Option Char) (input : List Char) (r : MRes), r ∈ mrun re prev input →
      ∀ cs : List Char, r.cap = some cs → ∀ c ∈ cs, isWordChar c = true := by
  induction re with
  | lit l =>
    intro prev input r hr cs hcap c hc
    simp only [mrun] at hr
    split at hr
    · rcases List.mem_singleton.mp hr with rfl
      simp at hcap
    · simp at hr
  | litCI l =>
    intro prev input r hr cs hcap c hc
    simp only [mrun] at hr
    split at hr
    · rcases List.mem_singleton.mp hr with rfl
      simp at hcap
    · simp at hr
  | cls p lo hi =>
    intro prev input r hr cs hcap c hc
    simp only [mrun] at hr
    rcases List.mem_map.mp hr with ⟨k, _, rfl⟩
    simp at hcap
  | grp lo hi =>
    intro prev input r hr cs hcap c hc
    simp only [mrun] at hr
    rcases List.mem_map.mp hr with ⟨k, hk, rfl⟩
    simp only [Option.some.injEq] at hcap
    subst hcap
    have hk' : k ≤ classRun isWordChar input :=
      le_trans (countdown_le _ _ _ hk) (min_le_left _ _)
    exact classRun_take isWordChar input k hk' c hc
  | seq r1 r2 ih1 ih2 =>
    intro prev input r hr cs hcap c hc
    simp only [mrun] at hr
    rcases List.mem_flatMap.mp hr with ⟨a, ha, hb⟩
    rcases List.mem_map.mp hb with ⟨b, hbm, rfl⟩
    simp only [capJoin] at hcap
    rcases hac : a.cap with _ | acs
    · rw [hac] at hcap
      exact ih2 a.prev a.rest b hbm cs hcap c hc
    · rw [hac] at hcap
      simp only [Option.some.injEq] at hcap
      subst hcap
      exact ih1 prev input a ha acs hac c hc
  | alt r1 r2 ih1 ih2 =>
    intro prev input r hr cs hcap c hc
    simp only [mrun] at hr
    rcases List.mem_append.mp hr with h | h
    · exact ih1 prev input r h cs hcap c hc
    · exact ih2 prev input r h cs hcap c hc
  | opt r ih =>
    intro prev input s hs cs hcap c hc
    simp only [mrun] at hs
    rcases List.mem_append.mp hs with h | h
    · exact ih prev input s h cs hcap c hc
    · rcases List.mem_singleton.mp h with rfl
      simp at hcap
  | eps =>
    intro prev input r hr cs hcap c hc
    simp only [mrun] at hr
    rcases List.mem_singleton.mp hr with rfl
    simp at hcap
  | wb =>
    intro prev input r hr cs hcap c hc
    simp only [mrun] at hr
    split at hr
    · simp at hr
    · rcases List.mem_singleton.mp hr with rfl
      simp at hcap

theorem reSearchAux_cap_word (re : RE) :
    ∀ (input : List Char) (prev : Option Char) (cs : List Char),
      reSearchAux re prev input = some (some cs) → ∀ c ∈ cs, isWordChar c = true := by
  intro input
  induction input with
  | nil =>
    intro prev cs h c hc
    rcases hm : mrun re prev [] with _ | ⟨r, rest⟩
    · simp only [reSearchAux, hm] at h
      exact Option.noConfusion h
    · simp only [reSearchAux, hm, Option.some.injEq] at h
      have hr : r ∈ mrun re prev [] := by rw [hm]; exact List.mem_cons_self r rest
      exact mrun_cap_word re prev [] r hr cs h c hc
  | cons x xs ih =>
    intro prev cs h c hc
    rcases hm : mrun re prev (x :: xs) with _ | ⟨r, rest⟩
    · simp only [reSearchAux, hm] at h
      exact ih (some x) cs h c hc
    · simp only [reSearchAux, hm, Option.some.injEq] at h
      have hr : r ∈ mrun re prev (x :: xs) := by rw [hm]; exact List.mem_cons_self r rest
      exact mrun_cap_word re prev (x :: xs) r hr cs h c hc

theorem reCapture_word (re : RE) (s : String) (h : String)
    (hcap : reCapture re s = some h) : ∀ c ∈ h.data, isWordChar c = true := by
  intro c hc
  unfold reCapture at hcap
  rcases hs : reSearchAux re none s.data with _ | cap
  · rw [hs] at hcap; simp at hcap
  · rw [hs] at hcap
    cases cap with
    | none => simp at hcap
    | some cs =>
      simp only [Option.some.injEq] at hcap
      have hdata : h.data = cs := by rw [← hcap]
      rw [hdata] at hc
      exact reSearchAux_cap_word re s.data none cs hs c hc

theorem stripLeadingAt_of_word (h : String)
    (hw : ∀ c ∈ h.data, isWordChar c = true) : stripLeadingAt h = h := by
  rcases hd : h.data with _ | ⟨c, rest⟩
  · simp [stripLeadingAt, hd]
  · have hcw : isWordChar c = true := hw c (by rw [hd]; exact List.mem_cons_self c rest)
    have hcne : ¬ c = '@' := by
      intro heq
      rw [heq] at hcw
      exact absurd hcw (by decide)
    simp [stripLeadingAt, hd, hcne]

/-- C8: `extractTwitterHandle` agrees with the specified extraction: the
URL pattern, the natural-language pattern and the correction pattern are
evaluated in that fixed order, the captured token of the first matching
pattern is returned with any leading at-sign stripped (the capture group
admits word characters only, so the marker is never part of it), and no
match yields no extraction. -/
theorem extractTwitterHandle_matches_spec (text : String) :
    extractTwitterHandle text = extractTwitterHandleSpec text := by
  unfold extractTwitterHandle extractTwitterHandleSpec
  simp only [List.findSome?_cons, List.findSome?_nil]
  rcases h1 : reCapture TWITTER_URL_RE text with _ | u
  · rcases h2 : reCapture TWITTER_HANDLE_RE text with _ | v
    · rcases h3 : reCapture TWITTER_CORRECTION_RE text with _ | w
      · simp
      · simp [stripLeadingAt_of_word w (reCapture_word _ _ _ h3)]
    · simp [stripLeadingAt_of_word v (reCapture_word _ _ _ h2)]
  · simp [stripLeadingAt_of_word u (reCapture_word _ _ _ h1)]

theorem strJoin_cons_cons (sep a b : String) (rest : List String) :
    strJoin sep (a :: b :: rest) = a ++ sep ++ strJoin sep (b :: rest) := rfl

theorem strJoin_append (sep : String) :
    ∀ (l1 l2 : List String), l1 ≠ [] → l2 ≠ [] →
      strJoin sep (l1 ++ l2) = strJoin sep l1 ++ sep ++ strJoin sep l2 := by
  intro l1
  induction l1 with
  | nil => intro l2 h1 _; exact absurd rfl h1
  | cons a l1' ih =>
    intro l2 _ h2
    cases l1' with
    | nil =>
      cases l2 with
      | nil => exact absurd rfl h2
      | cons b l2' => simp [strJoin_cons_cons, strJoin]
    | cons c l1'' =>
      have hne : c :: l1'' ≠ [] := by simp
      calc strJoin sep ((a :: c :: l1'') ++ l2)
          = a ++ sep ++ strJoin sep ((c :: l1'') ++ l2) := by
            simp only [List.cons_append]
            rw [strJoin_cons_cons]
        _ = a ++ sep ++ (strJoin sep (c :: l1'') ++ sep ++ strJoin sep l2) := by
            rw [ih l2 hne h2]
        _ = strJoin sep (a :: c :: l1'') ++ sep ++ strJoin sep l2 := by
            rw [strJoin_cons_cons]
            simp [String.append_assoc]

theorem strJoin_flatten (sep : String) :
    ∀ (ls : List (List String)), (∀ l ∈ ls, l ≠ []) →
      strJoin sep (ls.map (strJoin sep)) = strJoin sep ls.flatten := by
  intro ls
  induction ls with
  | nil => intro _; rfl
  | cons l ls' ih =>
    intro hall
    have hl : l ≠ [] := hall l (List.mem_cons_self l ls')
    have hall' : ∀ m ∈ ls', m ≠ [] := fun m hm => hall m (List.mem_cons_of_mem l hm)
    cases ls' with
    | nil => simp [strJoin]
    | cons m ls'' =>
      have hm : m ≠ [] := hall' m (List.mem_cons_self m ls'')
      have hflat : (m :: ls'').flatten ≠ [] := by
        simp only [List.flatten_cons]
        exact List.append_ne_nil_of_left_ne_nil hm _
      calc strJoin sep ((l :: m :: ls'').map (strJoin sep))
          = strJoin sep l ++ sep ++ strJoin sep ((m :: ls'').map (strJoin sep)) := by
            simp only [List.map_cons]
            rw [strJoin_cons_cons]
        _ = strJoin sep l ++ sep ++ strJoin sep (m :: ls'').flatten := by rw [ih hall']
        _ = strJoin sep (l ++ (m :: ls'').flatten) := by
            rw [strJoin_append sep l (m :: ls'').flatten hl hflat]
        _ = strJoin sep (l :: m :: ls'').flatten := by simp [List.flatten_cons]

theorem flatten_map_singleton {α : Type} :
    ∀ (l : List α), (l.map (fun x => [x])).flatten = l := by
  intro l
  induction l with
  | nil => rfl
  | cons a l' ih => simp [ih]

theorem append_ne_empty (p x : String) (hp : p.data ≠ []) : p ++ x ≠ "" := by
  intro h
  apply hp
  have hd := congrArg String.data h
  rw [String.data_append] at hd
  exact (List.append_eq_nil.mp hd).1

theorem ne_of_append_head (p x q : String) (hp : p.data ≠ [])
    (hne : p.data.head? ≠ q.data.head?) : p ++ x ≠ q := by
  intro h
  apply hne
  have hd := congrArg String.data h
  rw [String.data_append] at hd
  cases hpd : p.data with
  | nil => exact absurd hpd hp
  | cons c cs =>
    rw [hpd] at hd
    rw [← hd]
    simp

theorem eventLines_eq (t : CalTalk) :
    eventLines t =
      ["BEGIN:VEVENT",
       "UID:" ++ uidOf t,
       "DTSTART;TZID=Europe/Paris:" ++ String.mk (stripDashColon t.start),
       "DTEND;TZID=Europe/Paris:" ++ String.mk (stripDashColon t.end_),
       "SUMMARY:" ++ escapeICS t.title]
      ++ (if descPartsOf t = [] then []
          else ["DESCRIPTION:" ++ escapeICS (strJoin "\n" (descPartsOf t))])
      ++ ["LOCATION:" ++ escapeICS (locationText t), "END:VEVENT"] := by
  have h1 : ("UID:" ++ uidOf t) ≠ "" := append_ne_empty _ _ (by decide)
  have h2 : ("DTSTART;TZID=Europe/Paris:" ++ String.mk (stripDashColon t.start)) ≠ "" :=
    append_ne_empty _ _ (by decide)
  have h3 : ("DTEND;TZID=Europe/Paris:" ++ String.mk (stripDashColon t.end_)) ≠ "" :=
    append_ne_empty _ _ (by decide)
  have h4 : ("SUMMARY:" ++ escapeICS t.title) ≠ "" := append_ne_empty _ _ (by decide)
  have h6 : ("LOCATION:" ++ escapeICS (locationText t)) ≠ "" := append_ne_empty _ _ (by decide)
  by_cases hd : descPartsOf t = []
  · simp [eventLines, eventArray, hd, List.filter_cons, h1, h2, h3, h4, h6]
  · have h5 : ("DESCRIPTION:" ++ escapeICS (strJoin "\n" (descPartsOf t))) ≠ "" :=
      append_ne_empty _ _ (by decide)
    simp [eventLines, eventArray, hd, List.filter_cons, h1, h2, h3, h4, h5, h6]

theorem eventLines_ne_nil (t : CalTalk) : eventLines t ≠ [] := by
  rw [eventLines_eq]
  simp

theorem eventBlock_eq (t : CalTalk) : eventBlock t = strJoin "\r\n" (eventLines t) := rfl

theorem icsContent_eq_calLines (talks : List CalTalk) :
    (generateCalendarFile talks).icsContent = strJoin "\r\n" (calLines talks) := by
  have hblocks : ∀ l ∈ (calHeaderLines.map (fun x => [x]) ++ [tzLines]
      ++ talks.map eventLines ++ [["END:VCALENDAR"]]), l ≠ [] := by
    intro l hl
    rcases List.mem_append.mp hl with hl | hl
    · rcases List.mem_append.mp hl with hl | hl
      · rcases List.mem_append.mp hl with hl | hl
        · rcases List.mem_map.mp hl with ⟨x, _, rfl⟩; simp
        · rcases List.mem_singleton.mp hl with rfl; simp [tzLines]
      · rcases List.mem_map.mp hl with ⟨u, _, rfl⟩; exact eventLines_ne_nil u
    · rcases List.mem_singleton.mp hl with rfl; simp
  have hmap : ((calHeaderLines.map (fun x => [x]) ++ [tzLines]
        ++ talks.map eventLines ++ [["END:VCALENDAR"]]).map (strJoin "\r\n"))
      = calHeaderLines ++ [VTIMEZONE_EUROPE_PARIS] ++ talks.map eventBlock
        ++ ["END:VCALENDAR"] := by
    simp [List.map_append, List.map_map, Function.comp_def, strJoin, eventBlock,
      VTIMEZONE_EUROPE_PARIS]
  have hflat : ((calHeaderLines.map (fun x => [x]) ++ [tzLines]
        ++ talks.map eventLines ++ [["END:VCALENDAR"]]).flatten)
      = calLines talks := by
    simp [List.flatten_append, flatten_map_singleton, calLines, List.flatMap_def]
  have hjoin := strJoin_flatten "\r\n" _ hblocks
  rw [hmap, hflat] at hjoin
  show strJoin "\r\n" (calHeaderLines ++ [VTIMEZONE_EUROPE_PARIS]
    ++ talks.map eventBlock ++ ["END:VCALENDAR"]) = strJoin "\r\n" (calLines talks)
  exact hjoin

theorem count_eventLines (t : CalTalk) :
    ((eventLines t).count "BEGIN:VEVENT" = 1
      ∧ (eventLines t).count "END:VEVENT" = 1)
    ∧ (eventLines t).count "BEGIN:VTIMEZONE" = 0 := by
  rw [eventLines_eq]
  by_cases hd : descPartsOf t = [] <;>
    simp [hd, List.count_append, List.count_cons, List.count_nil,
      ne_of_append_head "UID:" (uidOf t) "BEGIN:VEVENT" (by decide) (by decide),
      ne_of_append_head "UID:" (uidOf t) "END:VEVENT" (by decide) (by decide),
      ne_of_append_head "UID:" (uidOf t) "BEGIN:VTIMEZONE" (by decide) (by decide),
      ne_of_append_head "DTSTART;TZID=Europe/Paris:" (String.mk (stripDashColon t.start))
        "BEGIN:VEVENT" (by decide) (by decide),
      ne_of_append_head "DTSTART;TZID=Europe/Paris:" (String.mk (stripDashColon t.start))
        "END:VEVENT" (by decide) (by decide),
      ne_of_append_head "DTSTART;TZID=Europe/Paris:" (String.mk (stripDashColon t.start))
        "BEGIN:VTIMEZONE" (by decide) (by decide),
      ne_of_append_head "DTEND;TZID=Europe/Paris:" (String.mk (stripDashColon t.end_))
        "BEGIN:VEVENT" (by decide) (by decide),
      ne_of_append_head "DTEND;TZID=Europe/Paris:" (String.mk (stripDashColon t.end_))
        "END:VEVENT" (by decide) (by decide),
      ne_of_append_head "DTEND;TZID=Europe/Paris:" (String.mk (stripDashColon t.end_))
        "BEGIN:VTIMEZONE" (by decide) (by decide),
      ne_of_append_head "SUMMARY:" (escapeICS t.title) "BEGIN:VEVENT" (by decide) (by decide),
      ne_of_append_head "SUMMARY:" (escapeICS t.title) "END:VEVENT" (by decide) (by decide),
      ne_of_append_head "SUMMARY:" (escapeICS t.title) "BEGIN:VTIMEZONE" (by decide) (by decide),
      ne_of_append_head "DESCRIPTION:" (escapeICS (strJoin "\n" (descPartsOf t)))
        "BEGIN:VEVENT" (by decide) (by decide),
      ne_of_append_head "DESCRIPTION:" (escapeICS (strJoin "\n" (descPartsOf t)))
        "END:VEVENT" (by decide) (by decide),
      ne_of_append_head "DESCRIPTION:" (escapeICS (strJoin "\n" (descPartsOf t)))
        "BEGIN:VTIMEZONE" (by decide) (by decide),
      ne_of_append_head "LOCATION:" (escapeICS (locationText t)) "BEGIN:VEVENT"
        (by decide) (by decide),
      ne_of_append_head "LOCATION:" (escapeICS (locationText t)) "END:VEVENT"
        (by decide) (by decide),
      ne_of_append_head "LOCATION:" (escapeICS (locationText t)) "BEGIN:VTIMEZONE"
        (by decide) (by decide)]

theorem count_flatMap_eventLines (talks : List CalTalk) :
    ((talks.flatMap eventLines).count "BEGIN:VEVENT" = talks.length
      ∧ (talks.flatMap eventLines).count "END:VEVENT" = talks.length)
    ∧ (talks.flatMap eventLines).count "BEGIN:VTIMEZONE" = 0 := by
  induction talks with
  | nil => simp
  | cons u us ih =>
    rcases ih with ⟨⟨ih1, ih2⟩, ih3⟩
    rcases count_eventLines u with ⟨⟨c1, c2⟩, c3⟩
    simp [List.flatMap_cons, List.count_append, c1, c2, c3, ih1, ih2, ih3]
    omega

theorem calLines_counts (talks : List CalTalk) :
    ((calLines talks).count "BEGIN:VEVENT" = talks.length
      ∧ (calLines talks).count "END:VEVENT" = talks.length)
    ∧ (calLines talks).count "BEGIN:VTIMEZONE" = 1 := by
  rcases count_flatMap_eventLines talks with ⟨⟨h1, h2⟩, h3⟩
  unfold calLines
  simp only [List.count_append, h1, h2, h3]
  refine ⟨⟨?_, ?_⟩, ?_⟩ <;> simp [calHeaderLines, tzLines, List.count_cons]

theorem summaryLine_mem (talks : List CalTalk) (t : CalTalk) (ht : t ∈ talks) :
    ("SUMMARY:" ++ escapeICS t.title) ∈ calLines talks := by
  have hin : ("SUMMARY:" ++ escapeICS t.title) ∈ eventLines t := by
    rw [eventLines_eq]
    by_cases hd : descPartsOf t = [] <;> simp [hd]
  unfold calLines
  simp only [List.append_assoc, List.mem_append, List.mem_flatMap]
  exact Or.inr (Or.inr (Or.inl ⟨t, ht, hin⟩))

theorem uidLine_mem (talks : List CalTalk) (t : CalTalk) (ht : t ∈ talks) :
    ("UID:" ++ uidOf t) ∈ calLines talks := by
  have hin : ("UID:" ++ uidOf t) ∈ eventLines t := by
    rw [eventLines_eq]
    by_cases hd : descPartsOf t = [] <;> simp [hd]
  unfold calLines
  simp only [List.append_assoc, List.mem_append, List.mem_flatMap]
  exact Or.inr (Or.inr (Or.inl ⟨t, ht, hin⟩))

theorem esc_chain : ∀ l : List Char,
    (l.flatMap escapeICSChar1).flatMap escapeNL = l.flatMap escCharSpec := by
  intro l
  induction l with
  | nil => rfl
  | cons c cs ih =>
    simp only [List.flatMap_cons, List.flatMap_append]
    rw [ih]
    by_cases h1 : c = '\\' ∨ c = ';' ∨ c = ','
    · rcases h1 with rfl | rfl | rfl <;> simp [escapeICSChar1, escapeNL, escCharSpec]
    · by_cases h2 : c = '\n'
      · subst h2; simp [escapeICSChar1, escapeNL, escCharSpec]
      · simp [escapeICSChar1, escapeNL, escCharSpec, h1, h2]

/-- `escapeICS` agrees with the single-pass per-character escape of the
spec. -/
theorem escapeICS_eq_spec (s : String) :
    (escapeICS s).data = s.data.flatMap escCharSpec := by
  show (s.data.flatMap escapeICSChar1).flatMap escapeNL = s.data.flatMap escCharSpec
  exact esc_chain s.data

theorem escapeICS_no_nl (s : String) : '\n' ∉ (escapeICS s).data := by
  rw [escapeICS_eq_spec]
  intro hmem
  rcases List.mem_flatMap.mp hmem with ⟨c, _, hc⟩
  by_cases h1 : c = '\\' ∨ c = ';' ∨ c = ','
  · rcases h1 with rfl | rfl | rfl <;> simp [escCharSpec] at hc
  · by_cases h2 : c = '\n'
    · subst h2; simp [escCharSpec, h1] at hc
    · simp [escCharSpec, h1, h2] at hc
      exact h2 hc.symm

theorem stripDashColon_no_nl (s : String) (h : '\n' ∉ s.data) :
    '\n' ∉ stripDashColon s := by
  intro hmem
  exact h (List.mem_of_mem_filter hmem)

theorem collapseWsAux_no_space :
    ∀ (l : List Char) (b : Bool) (c : Char), c ∈ collapseWsAux b l → isJsSpace c = false := by
  intro l
  induction l with
  | nil => intro b c hc; simp [collapseWsAux] at hc
  | cons x xs ih =>
    intro b c hc
    simp only [collapseWsAux] at hc
    by_cases hx : isJsSpace x = true
    · rw [if_pos hx] at hc
      cases b with
      | true => rw [if_pos rfl] at hc; exact ih true c hc
      | false =>
        rw [if_neg (by decide : ¬ ((false : Bool) = true))] at hc
        rcases List.mem_cons.mp hc with rfl | hc'
        · decide
        · exact ih true c hc'
    · rw [if_neg hx] at hc
      rcases List.mem_cons.mp hc with rfl | hc'
      · exact Bool.eq_false_iff.mpr hx
      · exact ih false c hc'

theorem toLower_eq_nl (d : Char) (h : Char.toLower d = '\n') : d = '\n' := by
  unfold Char.toLower at h
  by_cases hc : d.toNat ≥ 65 ∧ d.toNat ≤ 90
  · rw [if_pos hc] at h
    have hkey : (Char.ofNat (d.toNat + 32)).toNat = d.toNat + 32 := by
      have hv : (d.toNat + 32).isValidChar := Or.inl (by omega)
      simp [Char.ofNat, hv]
      rfl
    have h10 := congrArg Char.toNat h
    rw [hkey] at h10
    have : ('\n' : Char).toNat = 10 := by decide
    omega
  · rw [if_neg hc] at h
    exact h

theorem slug40_no_nl (title : String) : '\n' ∉ slug40 title := by
  intro hmem
  have hmem' : '\n' ∈ (collapseWs title.data).map Char.toLower :=
    List.mem_of_mem_take hmem
  rcases List.mem_map.mp hmem' with ⟨d, hd, hdl⟩
  have hdn : d = '\n' := toLower_eq_nl d hdl
  have hsp := collapseWsAux_no_space title.data false d hd
  rw [hdn] at hsp
  exact absurd hsp (by decide)

theorem append_no_nl (p x : String) (hp : '\n' ∉ p.data) (hx : '\n' ∉ x.data) :
    '\n' ∉ (p ++ x).data := by
  intro h
  rw [String.data_append] at h
  rcases List.mem_append.mp h with h' | h'
  · exact hp h'
  · exact hx h'

theorem uidOf_no_nl (t : CalTalk) (hstart : '\n' ∉ t.start.data) : '\n' ∉ (uidOf t).data := by
  unfold uidOf
  refine append_no_nl _ _ (append_no_nl _ _ (append_no_nl _ _ ?_ (by decide)) ?_) (by decide)
  · exact stripDashColon_no_nl t.start hstart
  · exact slug40_no_nl t.title

theorem eventLines_no_nl (u : CalTalk) (hs : '\n' ∉ u.start.data)
    (he : '\n' ∉ u.end_.data) : ∀ x ∈ eventLines u, '\n' ∉ x.data := by
  intro x hx
  have hx' : x ∈ eventArray u := List.mem_of_mem_filter hx
  simp only [eventArray, List.mem_cons, List.not_mem_nil, or_false] at hx'
  rcases hx' with rfl | rfl | rfl | rfl | rfl | hx' | rfl | rfl
  · decide
  · exact append_no_nl _ _ (by decide) (uidOf_no_nl u hs)
  · exact append_no_nl _ _ (by decide) (stripDashColon_no_nl u.start hs)
  · exact append_no_nl _ _ (by decide) (stripDashColon_no_nl u.end_ he)
  · exact append_no_nl _ _ (by decide) (escapeICS_no_nl u.title)
  · by_cases hd : descPartsOf u = []
    · rw [if_pos hd] at hx'
      subst hx'
      decide
    · rw [if_neg hd] at hx'
      subst hx'
      exact append_no_nl _ _ (by decide) (escapeICS_no_nl (strJoin "\n" (descPartsOf u)))
  · exact append_no_nl _ _ (by decide) (escapeICS_no_nl (locationText u))
  · decide

theorem calLines_no_nl (talks : List CalTalk)
    (hnl : ∀ u ∈ talks, '\n' ∉ u.start.data ∧ '\n' ∉ u.end_.data)
    (ln : String) (hln : ln ∈ calLines talks) : '\n' ∉ ln.data := by
  unfold calLines at hln
  simp only [List.append_assoc, List.mem_append, List.mem_flatMap] at hln
  have hhdr : ∀ x ∈ calHeaderLines, '\n' ∉ x.data := by decide
  have htz : ∀ x ∈ tzLines, '\n' ∉ x.data := by decide
  rcases hln with hh | hln
  · exact hhdr ln hh
  rcases hln with ht | hln
  · exact htz ln ht
  rcases hln with ⟨u, hu, hl⟩ | he
  · rcases hnl u hu with ⟨hs, he'⟩
    exact eventLines_no_nl u hs he' ln hl
  · have hend : ∀ x ∈ (["END:VCALENDAR"] : List String), '\n' ∉ x.data := by decide
    exact hend ln he

/-- C9: `generateCalendarFile` reports an event count equal to the
number of input talks; its document is the CRLF join of the canonical
line list, which holds exactly one `BEGIN:VEVENT`/`END:VEVENT` line pair
per input talk and the fixed Europe/Paris `BEGIN:VTIMEZONE` block
exactly once; each talk contributes a SUMMARY line carrying its escaped
title and a UID line derived deterministically from the stripped start
time plus the slugified title; `escapeICS` escapes backslash, semicolon,
comma and newline per character; and (given newline-free timestamps)
every canonical line is newline-free, so the line decomposition of the
document is unambiguous. -/
theorem generateCalendarFile_structure (talks : List CalTalk) (t : CalTalk)
    (ht : t ∈ talks) (ln : String) (hln : ln ∈ calLines talks) (s : String)
    (hnl : ∀ u ∈ talks, '\n' ∉ u.start.data ∧ '\n' ∉ u.end_.data) :
    (generateCalendarFile talks).eventCount = talks.length
    ∧ (generateCalendarFile talks).icsContent = strJoin "\r\n" (calLines talks)
    ∧ (calLines talks).count "BEGIN:VEVENT" = talks.length
    ∧ (calLines talks).count "END:VEVENT" = talks.length
    ∧ (calLines talks).count "BEGIN:VTIMEZONE" = 1
    ∧ ("SUMMARY:" ++ escapeICS t.title) ∈ calLines talks
    ∧ ("UID:" ++ uidOf t) ∈ calLines talks
    ∧ uidOf t = String.mk (stripDashColon t.start) ++ "-"
        ++ String.mk (slug40 t.title) ++ "@ethcc-planner"
    ∧ (escapeICS s).data = s.data.flatMap escCharSpec
    ∧ '\n' ∉ ln.data := by
  rcases calLines_counts talks with ⟨⟨c1, c2⟩, c3⟩
  exact ⟨rfl, icsContent_eq_calLines talks, c1, c2, c3,
    summaryLine_mem talks t ht, uidLine_mem talks t ht, rfl,
    escapeICS_eq_spec s, calLines_no_nl talks hnl ln hln⟩

theorem generateCalendarFile_structure_witness :
    (wCalTalk ∈ [wCalTalk]
      ∧ "BEGIN:VEVENT" ∈ calLines [wCalTalk]
      ∧ (∀ u ∈ [wCalTalk], '\n' ∉ u.start.data ∧ '\n' ∉ u.end_.data))
    ∧ ((generateCalendarFile [wCalTalk]).eventCount = [wCalTalk].length
      ∧ (generateCalendarFile [wCalTalk]).icsContent = strJoin "\r\n" (calLines [wCalTalk])
      ∧ (calLines [wCalTalk]).count "BEGIN:VEVENT" = [wCalTalk].length
      ∧ (calLines [wCalTalk]).count "END:VEVENT" = [wCalTalk].length
      ∧ (calLines [wCalTalk]).count "BEGIN:VTIMEZONE" = 1
      ∧ ("SUMMARY:" ++ escapeICS wCalTalk.title) ∈ calLines [wCalTalk]
      ∧ ("UID:" ++ uidOf wCalTalk) ∈ calLines [wCalTalk]
      ∧ uidOf wCalTalk = String.mk (stripDashColon wCalTalk.start) ++ "-"
          ++ String.mk (slug40 wCalTalk.title) ++ "@ethcc-planner"
      ∧ (escapeICS "a;b\nc").data = "a;b\nc".data.flatMap escCharSpec
      ∧ '\n' ∉ "BEGIN:VEVENT".data) :=
  ⟨⟨by decide, by decide, by decide⟩,
    generateCalendarFile_structure [wCalTalk] wCalTalk (by decide) "BEGIN:VEVENT"
      (by decide) "a;b\nc" (by decide)⟩
